import Mathlib

/-!
Verification development for the cli-bot-discord repository.

The definitions below are a shallow embedding of the program's core data
model and algorithms, translated from the Python sources:

* `src/parser/wrapper.py` — the `Result` stream, `List`/`Operator`/
  `Pipeline`/`Loop`/`For`/`Function` wrapper nodes;
* `src/structure/permissions.py` — `Mode.check`;
* `src/structure/filesystem.py` — `BaseFile.remove`, the private
  deletion helper, and `RootDirectory.create_inode`;
* `src/models/packages.py` — command dispatch (`Command.unsafe_execute`);
* `src/parser/__init__.py` — the `parse` retry loop.

Machine values are modelled with `Nat`/`Int`/`String`; Python `None` is a
distinguished value constructor; raised exceptions become explicit outcome
constructors.
-/

namespace CliBot

/-- A value carried by a `Result` stream (`src/parser/wrapper.py`).
Python error objects (`models/errors.py` `BaseError` subclasses) are
ordinary values in the stream, so they appear here as constructors:
`vfalseErr` (`FalseError`), `vinternalErr` (`InternalError`),
`vlimitErr` (`LimitExceededError`), `vbrkErr` (`BreakError`),
`vcontErr` (`ContinueError`), `vretErr` (`ReturnError`, carrying its
`.value`), `vgenericErr` (any other `BaseError`).  `vnone` is Python
`None`; `vlist` a Python list; `vres` a nested `Result` object (its
`data` and its `last`). -/
inductive RVal where
  | vstr (s : String)
  | vint (n : Int)
  | vnone
  | vlist (l : List RVal)
  | vres (data : List RVal) (lastv : Option RVal)
  | vfalseErr
  | vinternalErr
  | vlimitErr
  | vbrkErr
  | vcontErr
  | vretErr (v : RVal)
  | vgenericErr (s : String)
  deriving Repr

/-- Models `isinstance(x, BaseError)` on a stream value. -/
def isErr : RVal → Bool
  | .vfalseErr | .vinternalErr | .vlimitErr => true
  | .vbrkErr | .vcontErr | .vretErr _ | .vgenericErr _ => true
  | _ => false

/-- Models `isinstance(x, KeywordError)`: `BreakError`, `ContinueError`,
`ReturnError` (class hierarchy in `models/errors.py`). -/
def isKwErr : RVal → Bool
  | .vbrkErr | .vcontErr | .vretErr _ => true
  | _ => false

/-- Models `isinstance(x, ReturnError)`. -/
def isRetErr : RVal → Bool
  | .vretErr _ => true
  | _ => false

/-- The mutable state of a `Result` object: its `data` list and the
`last` attribute (`None` initially). -/
structure ResultM where
  data : List RVal
  lastv : Option RVal
  deriving Repr

/-- The empty `Result()`. -/
def emptyR : ResultM := ⟨[], none⟩

mutual

/-- Models `Result.append` acting on the `data` list only
(`src/parser/wrapper.py` lines 120-128): a `list` or `Result` argument
is iterated and each element appended recursively with `inside=True`;
`None` is dropped; anything else lands at the end of `data`. -/
def appendData (data : List RVal) (v : RVal) : List RVal :=
  match v with
  | .vlist l => appendDataList data l
  | .vres d _ => appendDataList data d
  | .vnone => data
  | v => data ++ [v]

/-- The `for element in object: self.append(element, True)` loop. -/
def appendDataList (data : List RVal) (l : List RVal) : List RVal :=
  match l with
  | [] => data
  | v :: rest => appendDataList (appendData data v) rest

end

mutual

/-- Models `Result.insert` acting on the `data` list only
(`src/parser/wrapper.py` lines 130-138): a `list` or `Result` argument
is iterated in reverse and each element inserted at position 0
recursively; `None` is dropped; anything else lands at the front. -/
def insertData (data : List RVal) (v : RVal) : List RVal :=
  match v with
  | .vlist l => insertDataList data l
  | .vres d _ => insertDataList data d
  | .vnone => data
  | v => v :: data

/-- The `for element in object[::-1]: self.insert(element, True)` loop,
expressed by processing the (unreversed) list from its right end. -/
def insertDataList (data : List RVal) (l : List RVal) : List RVal :=
  match l with
  | [] => data
  | v :: rest => insertData (insertDataList data rest) v

end

/-- Models `Result.append`: updates `data` and remembers the whole argument in
`last` (the `if not inside: self.last = object` line). -/
def Result.append (r : ResultM) (v : RVal) : ResultM :=
  { data := appendData r.data v, lastv := some v }

/-- Models `Result.insert`: updates `data` and remembers the whole argument in
`last`. -/
def Result.insert (r : ResultM) (v : RVal) : ResultM :=
  { data := insertData r.data v, lastv := some v }

/-- Models `Result.pop` (`src/parser/wrapper.py` lines 140-143): copies `data`
into a fresh `Result(data=copy)` and clears `data` of the receiver,
leaving the receiver's `last` untouched.  The constructor appends the
copied list but then runs `self.last: Any = None` (line 66), so the
popped result's `last` is always `None`.  Returns
(popped result, drained receiver). -/
def Result.pop (r : ResultM) : ResultM × ResultM :=
  (⟨r.data, none⟩, ⟨[], r.lastv⟩)

mutual

/-- Full recursive flattening of one appended value: the list that
`Result.append` actually adds to `data`. -/
def flattenOne (v : RVal) : List RVal :=
  match v with
  | .vlist l => flattenList l
  | .vres d _ => flattenList d
  | .vnone => []
  | v => [v]

/-- Flattening of a list of values, in order. -/
def flattenList (l : List RVal) : List RVal :=
  match l with
  | [] => []
  | v :: rest => flattenOne v ++ flattenList rest

end

/-- Modelled from the spec's words, for comparison with the code:
"inserting a Result or list into another flattens exactly one level";
elements that are themselves lists/Results would remain nested, and a
non-list value is appended as-is. -/
def appendOneLevelSpec (r : ResultM) (v : RVal) : ResultM :=
  match v with
  | .vlist l => ⟨r.data ++ l, some v⟩
  | .vres d _ => ⟨r.data ++ d, some v⟩
  | v => ⟨r.data ++ [v], some v⟩

mutual

theorem appendData_eq : ∀ (data : List RVal) (v : RVal),
    appendData data v = data ++ flattenOne v
  | data, .vstr s => by simp [appendData, flattenOne]
  | data, .vint n => by simp [appendData, flattenOne]
  | data, .vnone => by simp [appendData, flattenOne]
  | data, .vlist l => by
      rw [appendData, flattenOne]; exact appendDataList_eq data l
  | data, .vres d lastv => by
      rw [appendData, flattenOne]; exact appendDataList_eq data d
  | data, .vfalseErr => by simp [appendData, flattenOne]
  | data, .vinternalErr => by simp [appendData, flattenOne]
  | data, .vlimitErr => by simp [appendData, flattenOne]
  | data, .vbrkErr => by simp [appendData, flattenOne]
  | data, .vcontErr => by simp [appendData, flattenOne]
  | data, .vretErr v => by simp [appendData, flattenOne]
  | data, .vgenericErr s => by simp [appendData, flattenOne]

theorem appendDataList_eq : ∀ (data : List RVal) (l : List RVal),
    appendDataList data l = data ++ flattenList l
  | data, [] => by simp [appendDataList, flattenList]
  | data, v :: rest => by
      rw [appendDataList, flattenList, appendData_eq data v,
        appendDataList_eq (data ++ flattenOne v) rest, List.append_assoc]

end

mutual

theorem insertData_eq : ∀ (data : List RVal) (v : RVal),
    insertData data v = flattenOne v ++ data
  | data, .vstr s => by simp [insertData, flattenOne]
  | data, .vint n => by simp [insertData, flattenOne]
  | data, .vnone => by simp [insertData, flattenOne]
  | data, .vlist l => by
      rw [insertData, flattenOne]; exact insertDataList_eq data l
  | data, .vres d lastv => by
      rw [insertData, flattenOne]; exact insertDataList_eq data d
  | data, .vfalseErr => by simp [insertData, flattenOne]
  | data, .vinternalErr => by simp [insertData, flattenOne]
  | data, .vlimitErr => by simp [insertData, flattenOne]
  | data, .vbrkErr => by simp [insertData, flattenOne]
  | data, .vcontErr => by simp [insertData, flattenOne]
  | data, .vretErr v => by simp [insertData, flattenOne]
  | data, .vgenericErr s => by simp [insertData, flattenOne]

theorem insertDataList_eq : ∀ (data : List RVal) (l : List RVal),
    insertDataList data l = flattenList l ++ data
  | data, [] => by simp [insertDataList, flattenList]
  | data, v :: rest => by
      rw [insertDataList, flattenList,
        insertDataList_eq data rest, insertData_eq, List.append_assoc]

end

/-- C1 (counterexample): appending the nested list `[["a","b"],"c"]` to an
empty `Result` does not flatten exactly one level.  One-level splicing
(`appendOneLevelSpec`, the spec's words) would keep the inner list
`["a","b"]` nested, but `Result.append` flattens it away, yielding the
fully flat data `["a","b","c"]`. -/
theorem c1_one_level_counterexample :
    Result.append emptyR (.vlist [.vlist [.vstr "a", .vstr "b"], .vstr "c"])
      ≠ appendOneLevelSpec emptyR (.vlist [.vlist [.vstr "a", .vstr "b"], .vstr "c"])
    ∧ (Result.append emptyR (.vlist [.vlist [.vstr "a", .vstr "b"], .vstr "c"])).data
      = [.vstr "a", .vstr "b", .vstr "c"] := by
  constructor
  · simp [Result.append, appendOneLevelSpec, emptyR, appendData, appendDataList]
  · simp [Result.append, emptyR, appendData, appendDataList]

/-- C1 (amended): `Result.append`/`Result.insert` splice a list or
`Result` argument recursively through every nesting level (nested
lists/Results are flattened too and `None` elements are dropped); a
non-`None` scalar is appended/prepended as itself; and afterwards `last`
is the whole top-level value that was appended/prepended. -/
theorem c1_append_insert_flatten (r : ResultM) (v : RVal) :
    (Result.append r v).data = r.data ++ flattenOne v
    ∧ (Result.append r v).lastv = some v
    ∧ (Result.insert r v).data = flattenOne v ++ r.data
    ∧ (Result.insert r v).lastv = some v := by
  refine ⟨?_, rfl, ?_, rfl⟩
  · simp [Result.append, appendData_eq]
  · simp [Result.insert, insertData_eq]

/-- Models `Result.errors`: the `BaseError` instances among `data`. -/
def resErrors (data : List RVal) : List RVal :=
  data.filter isErr

/-- Models `isinstance(previous, BaseError)` where `previous` may be Python
`None` (modelled as `Option.none`, as `Result.last` starts out `None`). -/
def isErrOpt : Option RVal → Bool
  | some v => isErr v
  | none => false

/-- Models `bool(getattr(previous, "errors", False))`: only a `Result` carries
an `errors` attribute; for it the truth value is non-emptiness of the
error sublist of its `data`.  Every other value defaults to `False`. -/
def errorsAttr : Option RVal → Bool
  | some (.vres d _) => !(resErrors d).isEmpty
  | _ => false

/-- Models `isinstance(previous, ReturnError)` on an optional previous value. -/
def isRetOpt : Option RVal → Bool
  | some v => isRetErr v
  | none => false

/-- Models `Operator.finalize` (`src/parser/wrapper.py` lines 524-536): decides
whether the next `List` element runs (`true`) or is skipped (`false`),
from the operator token and the previous `result.last`. -/
def OperatorNode.finalize (t : String) (previous : Option RVal) : Bool :=
  let wasException := isErrOpt previous || errorsAttr previous
  if t = "&&" ∧ wasException then false
  else if t = "||" ∧ ¬wasException then false
  else if t ≠ "||" ∧ isRetOpt previous then false
  else true

/-- What `object.finalize(event)` did for a non-`Operator` child of a
`List`: returned a value (usually a `Result`), raised a `BaseError`
(modelled as the corresponding error value), or raised a non-`BaseError`
exception. -/
inductive EvalOutcome where
  | ok (v : RVal)
  | raised (e : RVal)
  | exn
  deriving Repr

/-- A child of a `List` wrapper: an `Operator` or an evaluable element
whose evaluation behaviour is given by an `EvalOutcome`. -/
inductive LElem where
  | op (t : String)
  | elem (o : EvalOutcome)
  deriving Repr

/-- The body of `List.finalize` (`src/parser/wrapper.py` lines 484-511),
instrumented to also record the indices of the non-`Operator` elements
that were actually evaluated.  A raised `KeywordError` is appended and
stops the loop; any other raised `BaseError` is appended; a
non-`BaseError` exception is appended as `InternalError`. -/
def listGo : List LElem → Nat → ResultM → Bool → List Nat → ResultM × List Nat
  | [], _, result, _, ev => (result, ev)
  | e :: rest, idx, result, skip, ev =>
    if skip then listGo rest (idx + 1) result false ev
    else
      match e with
      | .op t =>
          listGo rest (idx + 1) result (!OperatorNode.finalize t result.lastv) ev
      | .elem o =>
          match o with
          | .ok v => listGo rest (idx + 1) (Result.append result v) false (ev ++ [idx])
          | .raised err =>
              if isKwErr err then (Result.append result err, ev ++ [idx])
              else listGo rest (idx + 1) (Result.append result err) false (ev ++ [idx])
          | .exn => listGo rest (idx + 1) (Result.append result .vinternalErr) false (ev ++ [idx])

/-- Models `List.finalize`, starting from a fresh `Result()` with no skip. -/
def ListNode.finalize (elems : List LElem) : ResultM × List Nat :=
  listGo elems 0 emptyR false []

/-- The `Result` produced by `Command.finalize` for the `true` command
(`packages/base/booleans.py`): the command body returns `None`, which
`Result() << result` drops, leaving empty data with `last = None`. -/
def trueCmdResult : RVal := .vres [] (some .vnone)

/-- The `Result` produced by `Command.finalize` for the `false` command:
the body raises `FalseError`, which `Command.finalize` catches and
appends, so the data is the single error value. -/
def falseCmdResult : RVal := .vres [.vfalseErr] (some .vfalseErr)

/-- The `List` children for the script `true && false && true`. -/
def tftList : List LElem :=
  [.elem (.ok trueCmdResult), .op "&&", .elem (.ok falseCmdResult),
   .op "&&", .elem (.ok trueCmdResult)]

/-- C2: `List.finalize` evaluates left-to-right and the element after an
operator is skipped exactly when `Operator.finalize` says so; `&&` skips
exactly when the previous element's result carried an error, `||` skips
exactly when it carried none, and every operator other than `||` skips
when the previous value was a `ReturnError` signal.  On
`true && false && true` the final stream holds exactly one error value
and only the elements at indices 0 and 2 were evaluated — the third
command (index 4) never ran. -/
theorem c2_list_short_circuit :
    (∀ t e rest idx r ev,
      listGo (.op t :: e :: rest) idx r false ev =
        if OperatorNode.finalize t r.lastv then listGo (e :: rest) (idx + 1) r false ev
        else listGo rest (idx + 2) r false ev)
    ∧ (∀ prev, OperatorNode.finalize "&&" prev = !(isErrOpt prev || errorsAttr prev))
    ∧ (∀ prev, OperatorNode.finalize "||" prev = (isErrOpt prev || errorsAttr prev))
    ∧ (∀ t prev, t ≠ "||" → isRetOpt prev = true → OperatorNode.finalize t prev = false)
    ∧ (ListNode.finalize tftList
        = (⟨[.vfalseErr], some falseCmdResult⟩, [0, 2])
      ∧ resErrors (ListNode.finalize tftList).1.data = [.vfalseErr]) := by
  have hretErr : ∀ prev, isRetOpt prev = true → isErrOpt prev = true := by
    intro prev h
    cases prev with
    | none => simp [isRetOpt] at h
    | some v => cases v <;> simp_all [isRetOpt, isRetErr, isErrOpt, isErr]
  refine ⟨?_, ?_, ?_, ?_, ?_, ?_⟩
  · intro t e rest idx r ev
    by_cases h : OperatorNode.finalize t r.lastv = true
    · simp [listGo, h]
    · simp only [Bool.not_eq_true] at h
      simp [listGo, h]
  · intro prev
    by_cases h : (isErrOpt prev || errorsAttr prev) = true
    · simp [OperatorNode.finalize, h]
    · simp only [Bool.or_eq_true, not_or, Bool.not_eq_true] at h
      have hret : isRetOpt prev = false := by
        by_contra hc
        simp only [Bool.not_eq_false] at hc
        exact absurd (hretErr prev hc) (by simp [h.1])
      simp [OperatorNode.finalize, h.1, h.2, hret]
  · intro prev
    by_cases h : (isErrOpt prev || errorsAttr prev) = true
    · simp [OperatorNode.finalize, h]
    · simp only [Bool.or_eq_true, not_or, Bool.not_eq_true] at h
      simp [OperatorNode.finalize, h.1, h.2]
  · intro t prev ht hret
    by_cases hand : t = "&&"
    · simp [OperatorNode.finalize, hand, hretErr prev hret]
    · by_cases h : (isErrOpt prev || errorsAttr prev) = true
      · simp [OperatorNode.finalize, hand, ht, hret, h]
      · simp only [Bool.or_eq_true, not_or, Bool.not_eq_true] at h
        exact absurd (hretErr prev hret) (by simp [h.1])
  · simp [ListNode.finalize, tftList, listGo, OperatorNode.finalize, emptyR,
      Result.append, appendData, appendDataList, trueCmdResult, falseCmdResult,
      isErrOpt, errorsAttr, isRetOpt, isErr, isRetErr, resErrors, List.filter]
  · simp [ListNode.finalize, tftList, listGo, OperatorNode.finalize, emptyR,
      Result.append, appendData, appendDataList, trueCmdResult, falseCmdResult,
      isErrOpt, errorsAttr, isRetOpt, isErr, isRetErr, resErrors, List.filter]

/-- Witness for C2: the `;` operator skips after a return-signal. -/
theorem c2_list_short_circuit_witness :
    OperatorNode.finalize ";" (some (.vretErr .vnone)) = false :=
  c2_list_short_circuit.2.2.2.1 ";" (some (.vretErr .vnone)) (by decide)
    (by simp [isRetOpt, isRetErr])

/-- Models `Result.keyword_error` through `Result.last_keyword_error`
(`src/parser/wrapper.py` lines 247-253): when `last` is itself a
`Result` whose own `last` is a `KeywordError`, that error is raised. -/
def lastKeywordErr (r : ResultM) : Option RVal :=
  match r.lastv with
  | some (.vres _ (some v)) => if isKwErr v then some v else none
  | _ => none

/-- A child of a `Pipeline` wrapper: a `Pipe` marker or a stage whose
`finalize(event, stdin=...)` behaviour is a function of the optional
input stream. -/
inductive PElem where
  | pipe
  | stage (f : Option ResultM → EvalOutcome)

/-- An exception escaping `Pipeline.finalize`: a raised `BaseError`
value, a non-`BaseError` exception, or a `KeywordError` raised by
`result.last_keyword_error()`. -/
inductive PipeRaise where
  | err (e : RVal)
  | exn
  deriving Repr

/-- The body of `Pipeline.finalize` (`src/parser/wrapper.py` lines
559-577), instrumented to record the `stdin` each stage received.  A
`Pipe` marker sets the flag; a stage after a pipe receives
`result.pop()` (the drained accumulator) and the accumulator is emptied,
while any other stage receives `None`; the stage's value is appended and
`result.last_keyword_error()` re-raises a pending keyword signal. -/
def pipelineGo : List PElem → ResultM → Bool → List (Option ResultM) →
    Except PipeRaise ResultM × List (Option ResultM)
  | [], result, _, ins => (.ok result, ins)
  | e :: rest, result, pipe, ins =>
    match e with
    | .pipe => pipelineGo rest result true ins
    | .stage f =>
        let stdin : Option ResultM := if pipe then some (Result.pop result).1 else none
        let base : ResultM := if pipe then (Result.pop result).2 else result
        let ins' := ins ++ [stdin]
        match f stdin with
        | .raised e => (.error (.err e), ins')
        | .exn => (.error .exn, ins')
        | .ok v =>
            let result' := Result.append base v
            match lastKeywordErr result' with
            | some e => (.error (.err e), ins')
            | none => pipelineGo rest result' false ins'

/-- Models `Pipeline.finalize`, from a fresh `Result()` with no pending pipe. -/
def PipelineNode.finalize (elems : List PElem) :
    Except PipeRaise ResultM × List (Option ResultM) :=
  pipelineGo elems emptyR false []

/-- The single processing step for one stage, named so that the C6
theorem can state which input a stage receives. -/
def pipelineStage (f : Option ResultM → EvalOutcome) (rest : List PElem)
    (base : ResultM) (stdin : Option ResultM) (ins : List (Option ResultM)) :
    Except PipeRaise ResultM × List (Option ResultM) :=
  match f stdin with
  | .raised e => (.error (.err e), ins ++ [stdin])
  | .exn => (.error .exn, ins ++ [stdin])
  | .ok v =>
      let result' := Result.append base v
      match lastKeywordErr result' with
      | some e => (.error (.err e), ins ++ [stdin])
      | none => pipelineGo rest result' false (ins ++ [stdin])

/-- The stage modelling `echo a`: ignores stdin and outputs the `Result`
with the single string `"a"`. -/
def echoA : PElem := .stage (fun _ => .ok (.vres [.vstr "a"] (some (.vstr "a"))))

/-- A consumer stage that returns its stdin (drained input stream) as
its own result, recording what it observed. -/
def consumeStage : PElem :=
  .stage (fun stdin =>
    match stdin with
    | some r => .ok (.vres r.data r.lastv)
    | none => .ok .vnone)

/-- C6: a pipeline stage preceded by a `Pipe` marker receives as stdin
exactly the drained accumulator (`Result.pop`): the popped `Result`
carries precisely the accumulated `data` (its own `last` reset to
`None` by the constructor), and the accumulator continues emptied (only
its `last` survives).  A stage not preceded by a pipe receives no
input.  In particular in `echo a | <consumer>` the consumer observes
exactly the one-element stream `["a"]` as input. -/
theorem c6_pipeline_stdin :
    (∀ f rest r ins,
      pipelineGo (.pipe :: .stage f :: rest) r false ins =
        pipelineStage f rest ⟨[], r.lastv⟩ (some ⟨r.data, none⟩) ins)
    ∧ (∀ f rest r ins,
      pipelineGo (.stage f :: rest) r false ins =
        pipelineStage f rest r none ins)
    ∧ (PipelineNode.finalize [echoA, .pipe, consumeStage]).2
        = [none, some ⟨[.vstr "a"], none⟩]
    ∧ (PipelineNode.finalize [echoA, .pipe, consumeStage]).1
        = .ok ⟨[.vstr "a"], some (.vres [.vstr "a"] none)⟩ := by
  refine ⟨?_, ?_, ?_, ?_⟩
  · intro f rest r ins
    simp [pipelineGo, pipelineStage, Result.pop]
  · intro f rest r ins
    simp [pipelineGo, pipelineStage]
  · simp [PipelineNode.finalize, pipelineGo, pipelineStage, echoA, consumeStage,
      emptyR, Result.pop, Result.append, appendData, appendDataList,
      lastKeywordErr, isKwErr]
  · simp [PipelineNode.finalize, pipelineGo, pipelineStage, echoA, consumeStage,
      emptyR, Result.pop, Result.append, appendData, appendDataList,
      lastKeywordErr, isKwErr]

/-- The behaviour of one evaluation of a loop/branch body
(`object.finalize(event)` inside `For.finalize`, `Loop.finalize`,
`If.finalize`): a returned value, a raised `BaseError` value, or a
non-`BaseError` exception. -/
inductive BodyOut where
  | normal (v : RVal)
  | raised (e : RVal)
  | exn
  deriving Repr

/-- The effect of one body evaluation on the accumulated `Result`:
continue with the next iteration, stop the loop, or re-raise
`ReturnError(result << ex.value)`. -/
inductive StepRes where
  | next (r : ResultM)
  | stop (r : ResultM)
  | raiseRet (r : ResultM)
  deriving Repr

/-- The shared `try: result << ...; result.last_keyword_error()` body
step of `For.finalize` (lines 821-834) and `Loop.finalize` (lines
890-900): `BreakError` breaks, `ContinueError` continues, `ReturnError`
re-raises carrying `result << ex.value`, and any other exception is
swallowed by `except Exception: pass`. -/
def bodyStep (result : ResultM) (out : BodyOut) : StepRes :=
  match out with
  | .normal v =>
      let result' := Result.append result v
      match lastKeywordErr result' with
      | some .vbrkErr => .stop result'
      | some .vcontErr => .next result'
      | some (.vretErr rv) => .raiseRet (Result.append result' rv)
      | some _ => .next result'
      | none => .next result'
  | .raised .vbrkErr => .stop result
  | .raised .vcontErr => .next result
  | .raised (.vretErr rv) => .raiseRet (Result.append result rv)
  | .raised _ => .next result
  | .exn => .next result

/-- Outcome of `Loop.finalize`: normal completion, the raised
`LimitExceededError(1000, "maximum repeatings")`, or a propagating
`ReturnError` carrying the accumulated `Result`. -/
inductive LoopOut where
  | finished (r : ResultM)
  | raisedLimit
  | raisedReturn (r : ResultM)
  deriving Repr

/-- Trace events of a loop run: the `t`-th evaluation of the condition,
and the body run of iteration `t`. -/
inductive LoopTr where
  | c (k : Nat)
  | b (k : Nat)
  deriving Repr, DecidableEq

/-- Models `not any(isinstance(x, BaseError) for x in condition(event))`:
a condition `Result` counts as true when it carries no error. -/
def condTrue (r : ResultM) : Bool := !(r.data.any isErr)

/-- The `while True` loop inside `Loop.finalize`
(`src/parser/wrapper.py` lines 874-901).  `total` counts completed
iterations; each pass first increments it, raises
`LimitExceededError` when it exceeds 1000, otherwise evaluates the
condition (the `t`-th evaluation, recorded in the trace), exits when
the condition fails (`while`) or holds (`until`), and runs the body.
`cond t`/`body t` give the outcome of the `t`-th condition/body
evaluation. -/
def loopGo (cond : Nat → ResultM) (isTrue : Bool) (body : Nat → BodyOut)
    (result : ResultM) (total : Nat) (tr : List LoopTr) :
    LoopOut × List LoopTr :=
  let t := total + 1
  if _h : t > 1000 then (.raisedLimit, tr)
  else
    let condResult := condTrue (cond t)
    let tr' := tr ++ [.c t]
    if (!condResult && isTrue) || (condResult && !isTrue) then (.finished result, tr')
    else
      match bodyStep result (body t) with
      | .next r => loopGo cond isTrue body r t (tr' ++ [.b t])
      | .stop r => (.finished r, tr' ++ [.b t])
      | .raiseRet r => (.raisedReturn r, tr' ++ [.b t])
termination_by 1000 - total
decreasing_by simp_wf; omega

/-- Models `Loop.finalize`: `while` has `isTrue = true`, `until` has
`isTrue = false`; starts with a fresh `Result()` and `total = 0`. -/
def LoopNode.finalize (cond : Nat → ResultM) (isTrue : Bool)
    (body : Nat → BodyOut) : LoopOut × List LoopTr :=
  loopGo cond isTrue body emptyR 0 []

/-- Number of condition evaluations recorded in a trace. -/
def countCond (tr : List LoopTr) : Nat :=
  tr.countP fun x => match x with | .c _ => true | _ => false

/-- The strictly alternating trace `[c s, b s, c (s+1), b (s+1), …]`
of `n` full iterations starting at iteration `s`. -/
def cbRange (s : Nat) : Nat → List LoopTr
  | 0 => []
  | n + 1 => .c s :: .b s :: cbRange (s + 1) n

theorem countCond_append (a b : List LoopTr) :
    countCond (a ++ b) = countCond a + countCond b := by
  simp [countCond, List.countP_append]

theorem loopGo_count (n : Nat) :
    ∀ (cond : Nat → ResultM) (isTrue : Bool) (body : Nat → BodyOut)
      (r : ResultM) (total : Nat) (tr : List LoopTr), 1000 - total ≤ n →
      countCond (loopGo cond isTrue body r total tr).2
          ≤ countCond tr + (1000 - total)
      ∧ ((loopGo cond isTrue body r total tr).1 = .raisedLimit →
          countCond (loopGo cond isTrue body r total tr).2
            = countCond tr + (1000 - total)) := by
  induction n with
  | zero =>
      intro cond isTrue body r total tr hn
      have htot : 1000 ≤ total := by omega
      rw [loopGo]
      have h1001 : total + 1 > 1000 := by omega
      simp only [h1001, dite_true]
      constructor
      · omega
      · intro _; omega
  | succ n ih =>
      intro cond isTrue body r total tr hn
      rw [loopGo]
      by_cases hlim : total + 1 > 1000
      · simp only [hlim, dite_true]
        have : 1000 - total = 0 := by omega
        constructor
        · omega
        · intro _; omega
      · simp only [hlim, dite_false]
        have hlt : total < 1000 := by omega
        by_cases hcond : ((!condTrue (cond (total + 1)) && isTrue)
            || (condTrue (cond (total + 1)) && !isTrue)) = true
        · simp only [hcond, if_true]
          constructor
          · simp [countCond_append, countCond]; omega
          · intro h; simp at h
        · simp only [hcond, if_false]
          cases hb : bodyStep r (body (total + 1)) with
          | next r2 =>
              have ihh := ih cond isTrue body r2 (total + 1)
                ((tr ++ [.c (total + 1)]) ++ [.b (total + 1)]) (by omega)
              constructor
              · calc countCond (loopGo cond isTrue body r2 (total + 1)
                      ((tr ++ [.c (total + 1)]) ++ [.b (total + 1)])).2
                    ≤ countCond ((tr ++ [.c (total + 1)]) ++ [.b (total + 1)])
                        + (1000 - (total + 1)) := ihh.1
                  _ = countCond tr + (1000 - total) := by
                      simp [countCond_append, countCond]; omega
              · intro h
                calc countCond (loopGo cond isTrue body r2 (total + 1)
                      ((tr ++ [.c (total + 1)]) ++ [.b (total + 1)])).2
                    = countCond ((tr ++ [.c (total + 1)]) ++ [.b (total + 1)])
                        + (1000 - (total + 1)) := ihh.2 h
                  _ = countCond tr + (1000 - total) := by
                      simp [countCond_append, countCond]; omega
          | stop r2 =>
              constructor
              · simp [countCond_append, countCond]; omega
              · intro h; simp at h
          | raiseRet r2 =>
              constructor
              · simp [countCond_append, countCond]; omega
              · intro h; simp at h

theorem loopGo_limit (n : Nat) :
    ∀ (cond : Nat → ResultM) (body : Nat → BodyOut) (r : ResultM)
      (total : Nat) (tr : List LoopTr), total + n = 1000 →
      (∀ k, condTrue (cond k) = true) →
      (∀ k r0, ∃ r2, bodyStep r0 (body k) = .next r2) →
      loopGo cond true body r total tr
        = (.raisedLimit, tr ++ cbRange (total + 1) n) := by
  induction n with
  | zero =>
      intro cond body r total tr htot hc hb
      rw [loopGo]
      have h1001 : total + 1 > 1000 := by omega
      simp [h1001, cbRange]
  | succ n ih =>
      intro cond body r total tr htot hc hb
      rw [loopGo]
      have hlim : ¬ (total + 1 > 1000) := by omega
      obtain ⟨r2, hr2⟩ := hb (total + 1) r
      simp only [hlim, dite_false, hc (total + 1), hr2, Bool.not_true,
        Bool.false_and, Bool.and_false, Bool.or_self, Bool.false_eq_true,
        if_false]
      rw [ih cond body r2 (total + 1) _ (by omega) hc hb]
      simp [cbRange]

/-- C5: the loop in `Loop.finalize` re-evaluates its condition before
each iteration of the body and is bounded at 1000 iterations: starting
from iteration count `total`, at most `1000 - total` further condition
evaluations happen; when the loop ends with `LimitExceededError`,
exactly that many condition evaluations happened (so the condition is
never evaluated more than 1000 times — the would-be 1001st evaluation
is replaced by the raised error); and a `while` loop whose condition
never carries an error and whose body always continues produces the
strictly alternating trace `condition 1, body 1, …, condition 1000,
body 1000` and then raises the limit error, so loop evaluation always
terminates. -/
theorem c5_loop_limit :
    (∀ cond isTrue body r total tr, total ≤ 1000 →
      countCond (loopGo cond isTrue body r total tr).2
        ≤ countCond tr + (1000 - total))
    ∧ (∀ cond isTrue body r total tr, total ≤ 1000 →
      (loopGo cond isTrue body r total tr).1 = .raisedLimit →
      countCond (loopGo cond isTrue body r total tr).2
        = countCond tr + (1000 - total))
    ∧ (∀ cond body, (∀ k, condTrue (cond k) = true) →
      (∀ k r0, ∃ r2, bodyStep r0 (body k) = .next r2) →
      LoopNode.finalize cond true body = (.raisedLimit, cbRange 1 1000)) := by
  refine ⟨?_, ?_, ?_⟩
  · intro cond isTrue body r total tr h
    exact (loopGo_count (1000 - total) cond isTrue body r total tr (le_refl _)).1
  · intro cond isTrue body r total tr h
    exact (loopGo_count (1000 - total) cond isTrue body r total tr (le_refl _)).2
  · intro cond body hc hb
    have := loopGo_limit 1000 cond body emptyR 0 [] (by omega) hc hb
    simpa [LoopNode.finalize] using this

/-- Witness for C5: a loop whose condition always holds and whose body
always raises a swallowed exception runs for the full 1000 iterations
and then raises the limit error. -/
theorem c5_loop_limit_witness :
    LoopNode.finalize (fun _ => emptyR) true (fun _ => .exn)
      = (.raisedLimit, cbRange 1 1000) :=
  c5_loop_limit.2.2 (fun _ => emptyR) (fun _ => .exn)
    (fun _ => by simp [condTrue, emptyR])
    (fun _ r0 => ⟨r0, by simp [bodyStep]⟩)

/-- Outcome of the `for variable in iterable` loop of `For.finalize`
(`src/parser/wrapper.py` lines 821-835): normal completion, or a
propagating `ReturnError` carrying the accumulated `Result`. -/
inductive ForOut where
  | finished (r : ResultM)
  | raisedReturn (r : ResultM)
  deriving Repr

/-- The iteration loop of `For.finalize`: binds each item (modelled by
handing the item to `body`), runs the body step, and dispatches on its
result: Break stops, Continue proceeds, Return re-raises outward, any
other exception is swallowed. -/
def forGo (body : RVal → BodyOut) (items : List RVal) (result : ResultM) :
    ForOut :=
  match items with
  | [] => .finished result
  | x :: rest =>
      match bodyStep result (body x) with
      | .next r => forGo body rest r
      | .stop r => .finished r
      | .raiseRet r => .raisedReturn r

/-- Outcome of evaluating the chosen branch inside `If.finalize`
(`src/parser/wrapper.py` lines 769-778): the branch result, a
re-raised `ReturnError` with the accumulated `Result`, some other
propagating `BaseError` (If catches only `ReturnError`), or a
non-`BaseError` exception. -/
inductive IfOut where
  | finished (r : ResultM)
  | raisedReturn (r : ResultM)
  | raisedErr (e : RVal)
  | raisedExn
  deriving Repr

/-- The `try` block run for the chosen branch of `If.finalize`: append
the branch value to the fresh `result`, re-check `last_keyword_error`,
convert a `ReturnError` into `ReturnError(result << ex.value)`, and let
every other exception propagate. -/
def ifBranch (out : BodyOut) : IfOut :=
  match out with
  | .normal v =>
      let result' := Result.append emptyR v
      match lastKeywordErr result' with
      | some (.vretErr rv) => .raisedReturn (Result.append result' rv)
      | some e => .raisedErr e
      | none => .finished result'
  | .raised (.vretErr rv) => .raisedReturn (Result.append emptyR rv)
  | .raised e => .raisedErr e
  | .exn => .raisedExn

/-- What running a function's compound body did, as seen by
`Function.execute` (`src/parser/wrapper.py` lines 935-952). -/
inductive FnBodyOut where
  | ok (r : ResultM)
  | raisedRet (v : RVal)
  | raisedOther
  deriving Repr

/-- Models `Function.execute`'s result handling: an uncaught `ReturnError`
becomes the function's result value; a body `Result` whose deferred
keyword check raises a `ReturnError` does the same; any other
exception is swallowed (`except Exception: pass`) leaving the result as
assigned so far (`None` when the body itself raised). -/
def FunctionNode.execute (out : FnBodyOut) : Option RVal :=
  match out with
  | .ok r =>
      match lastKeywordErr r with
      | some (.vretErr v) => some v
      | _ => some (.vres r.data r.lastv)
  | .raisedRet v => some v
  | .raisedOther => none

/-- C7: Break and Continue are caught exactly at the enclosing loop
boundary — a body raising `BreakError` makes the loop finish with the
accumulated `Result` and a body raising `ContinueError` makes it
proceed with the remaining items — while a `ReturnError` is not caught
by the loop or by `If`: both re-raise it carrying the partial `Result`
accumulated so far plus the return value, and `Function.execute`
converts the uncaught `ReturnError` into the function's result value. -/
theorem c7_signal_boundaries :
    (∀ body x rest r, body x = .raised .vbrkErr →
      forGo body (x :: rest) r = .finished r)
    ∧ (∀ body x rest r, body x = .raised .vcontErr →
      forGo body (x :: rest) r = forGo body rest r)
    ∧ (∀ body x rest r v, body x = .raised (.vretErr v) →
      forGo body (x :: rest) r = .raisedReturn (Result.append r v))
    ∧ (∀ v, ifBranch (.raised (.vretErr v))
        = .raisedReturn (Result.append emptyR v))
    ∧ (ifBranch (.raised .vbrkErr) = .raisedErr .vbrkErr
       ∧ ifBranch (.raised .vcontErr) = .raisedErr .vcontErr)
    ∧ (∀ v, FunctionNode.execute (.raisedRet v) = some v) := by
  refine ⟨?_, ?_, ?_, ?_, ⟨rfl, rfl⟩, fun v => rfl⟩
  · intro body x rest r h
    simp [forGo, h, bodyStep]
  · intro body x rest r h
    simp [forGo, h, bodyStep]
  · intro body x rest r v h
    simp [forGo, h, bodyStep]
  · intro v
    simp [ifBranch]

/-- Witness for C7: a body that immediately breaks finishes the loop
with the untouched accumulator. -/
theorem c7_signal_boundaries_witness :
    forGo (fun _ => .raised .vbrkErr) [.vnone] emptyR = .finished emptyR :=
  c7_signal_boundaries.1 (fun _ => .raised .vbrkErr) .vnone [] emptyR rfl

/-- The octal digits of `v`, most significant first, as produced by
`format(self.value, "o")`; the first parameter is recursion fuel (any
fuel ≥ the number of digits gives the same answer, and `v` itself is
always enough). -/
def octDigitsGo : Nat → Nat → List Nat
  | 0, _ => []
  | _ + 1, 0 => []
  | fuel + 1, v => octDigitsGo fuel (v / 8) ++ [v % 8]

/-- Models `format(value, "o")`: at least one digit (`"0"` for zero). -/
def octDigits (v : Nat) : List Nat :=
  if v = 0 then [0] else octDigitsGo v v

/-- Models `.rjust(3, "0")`: left-pad the digit list to length at least 3. -/
def rjust3 (ds : List Nat) : List Nat :=
  List.replicate (3 - ds.length) 0 ++ ds

/-- One octal digit to its rwx bits, following `Mode.__iter__`
(`src/structure/permissions.py` lines 27-45): subtract 4 for `r`,
then 2 for `w`, then test equality with 1 for `x`. -/
def digitBits (d : Nat) : List Bool :=
  let r := decide (d ≥ 4)
  let d1 := if d ≥ 4 then d - 4 else d
  let w := decide (d1 ≥ 2)
  let d2 := if d1 ≥ 2 then d1 - 2 else d1
  let x := decide (d2 = 1)
  [r, w, x]

/-- Models `Mode.bit_grouped`: the permission bits, one `[r,w,x]` triple per
padded octal digit of `value`. -/
def bit_grouped (value : Nat) : List (List Bool) :=
  (rjust3 (octDigits value)).map digitBits

/-- Models `Mode` (`src/structure/permissions.py`): numeric permission value,
owner identity and capability group.  Identities are modelled as `Nat`
(platform ids) and groups as `String`. -/
structure Mode where
  value : Nat
  owner : Nat
  group : String
  deriving Repr, DecidableEq

/-- The acting principal derived from an `Event`: the identity
`event.state.object.id` and the capability-group set `event.groups()`. -/
structure Principal where
  id : Nat
  groups : List String
  deriving Repr, DecidableEq

/-- The `action` argument of `Mode.check`. -/
inductive Action where
  | read
  | write
  | execute
  | owner
  | group
  deriving Repr, DecidableEq

/-- Models `Mode.indexes`: defined only for `read`/`write`/`execute`; a lookup
for `owner`/`group` is a `KeyError` (modelled as `none`). -/
def indexes : Action → Option Nat
  | .read => some 0
  | .write => some 1
  | .execute => some 2
  | _ => none

/-- The `event` argument of `Mode.check`: the `event is True` sentinel,
Python `None`, or an actual principal. -/
inductive EventM where
  | sys
  | noEvent
  | prin (p : Principal)
  deriving Repr, DecidableEq

/-- Result of a check: a boolean (with `exception=True` the `false`
case raises `PermissionDeniedError` instead — same information), or a
crash (`AttributeError` on a `None` event, `KeyError` on an undefined
`indexes` lookup). -/
inductive CheckOut where
  | ok (b : Bool)
  | crash
  deriving Repr, DecidableEq

/-- Models `Mode.check` (`src/structure/permissions.py` lines 70-103).
`event is True` short-circuits to `True`; a `None` event dereferences
`event.state` and crashes; otherwise the `owner`/`group` actions return
`True` on an identity/group match, and the consulted triple is chosen
by comparing the principal's identity with `owner` and its group set
with `group`, indexed by the action. -/
def Mode.check (m : Mode) (ev : EventM) (a : Action) : CheckOut :=
  match ev with
  | .sys => .ok true
  | .noEvent => .crash
  | .prin p =>
    if a = .owner ∧ p.id = m.owner then .ok true
    else if a = .group ∧ m.group ∈ p.groups then .ok true
    else
      let grp :=
        if p.id = m.owner then (bit_grouped m.value).getD 0 []
        else if m.group ∈ p.groups then (bit_grouped m.value).getD 1 []
        else (bit_grouped m.value).getD 2 []
      match indexes a with
      | none => .crash
      | some idx => .ok (grp.getD idx false)

/-- The rwx position consulted for each of the three data actions. -/
def rwxIndex : Action → Nat
  | .write => 1
  | .execute => 2
  | _ => 0

set_option maxRecDepth 4000 in
theorem bitGrouped_small : ∀ v < 512, bit_grouped v
    = [digitBits (v / 64), digitBits (v / 8 % 8), digitBits (v % 8)] := by
  decide

/-- C4: for a data action (`read`/`write`/`execute`) and a 9-bit mode,
`Mode.check` consults exactly one rwx triple — the owner triple when
the principal's identity equals `owner`, else the group triple when
`group` is among the principal's capability groups, else the other
triple — and answers with that triple's bit for the action.  In
particular with mode `0o640`, owner `1`, group `"g"`: a principal that
is neither the owner nor a member of `"g"` is denied both write and
read, and a member of `"g"` other than the owner may read but not
write. -/
theorem c4_mode_check :
    (∀ (m : Mode) (p : Principal) (a : Action),
      (a = .read ∨ a = .write ∨ a = .execute) → m.value < 512 →
      Mode.check m (.prin p) a =
        .ok ((if p.id = m.owner then digitBits (m.value / 64)
              else if m.group ∈ p.groups then digitBits (m.value / 8 % 8)
              else digitBits (m.value % 8)).getD (rwxIndex a) false))
    ∧ Mode.check ⟨0o640, 1, "g"⟩ (.prin ⟨2, ["any", "user"]⟩) .write = .ok false
    ∧ Mode.check ⟨0o640, 1, "g"⟩ (.prin ⟨2, ["any", "user"]⟩) .read = .ok false
    ∧ Mode.check ⟨0o640, 1, "g"⟩ (.prin ⟨3, ["any", "g", "user"]⟩) .read = .ok true
    ∧ Mode.check ⟨0o640, 1, "g"⟩ (.prin ⟨3, ["any", "g", "user"]⟩) .write
        = .ok false := by
  refine ⟨?_, by decide, by decide, by decide, by decide⟩
  intro m p a ha hv
  have hbg := bitGrouped_small m.value hv
  have hown : ¬ (a = .owner ∧ p.id = m.owner) := by
    rcases ha with h | h | h <;> subst h <;> simp
  have hgrp : ¬ (a = .group ∧ m.group ∈ p.groups) := by
    rcases ha with h | h | h <;> subst h <;> simp
  by_cases h1 : p.id = m.owner
  · rcases ha with h | h | h <;> subst h <;>
      simp [Mode.check, hown, hgrp, h1, hbg, indexes, rwxIndex]
  · by_cases h2 : m.group ∈ p.groups
    · rcases ha with h | h | h <;> subst h <;>
        simp [Mode.check, hown, hgrp, h1, h2, hbg, indexes, rwxIndex]
    · rcases ha with h | h | h <;> subst h <;>
        simp [Mode.check, hown, hgrp, h1, h2, hbg, indexes, rwxIndex]

/-- Witness for C4: the owner of a `0o640` node may write it. -/
theorem c4_mode_check_witness :
    Mode.check ⟨0o640, 1, "g"⟩ (.prin ⟨1, ["any", "user"]⟩) .write
      = .ok ((if (1 : Nat) = 1 then digitBits (0o640 / 64)
              else if "g" ∈ ["any", "user"] then digitBits (0o640 / 8 % 8)
              else digitBits (0o640 % 8)).getD (rwxIndex .write) false) :=
  c4_mode_check.1 ⟨0o640, 1, "g"⟩ ⟨1, ["any", "user"]⟩ .write
    (Or.inr (Or.inl rfl)) (by decide)

/-- Models `argparser.parse_args` output, as far as dispatch inspects it: the
`help` flag plus the parsed payload (opaque here). -/
structure ParsedArgs where
  help : Bool
  payload : List String
  deriving Repr, DecidableEq

/-- The argument handed to the command body: the raw argument list when
the command has no argparser, or the parsed namespace. -/
inductive FnArg where
  | raw (args : List String)
  | parsed (p : ParsedArgs)
  deriving Repr, DecidableEq

/-- Errors raised by dispatch before or instead of the body:
`CommandPermissionError` and `ArgparseError`. -/
inductive DispatchErr where
  | perm
  | argparse (s : String)
  deriving Repr, DecidableEq

/-- A statically registered command as dispatch sees it
(`models/packages.py` class `Command`): its permission `group`, its
optional argument parser, its help message and its body. -/
structure CommandM where
  group : String
  argparser : Option (List String → Except String ParsedArgs)
  help_message : String
  fn : FnArg → RVal

/-- The instrumented outcome of a dispatch: the result plus whether the
argument parser and the body actually ran. -/
structure DispatchTrace where
  result : Except DispatchErr RVal
  parserRan : Bool
  bodyRan : Bool

/-- Models `Command.unsafe_execute` (`src/models/packages.py` lines 166-184):
the capability-group check (`cls.group not in event.groups() and "root"
not in event.groups()`) runs first and raises
`CommandPermissionError` on failure; only then is the argparser invoked
(an `argparse.ArgumentError` becomes `ArgparseError`, a parsed `help`
flag returns the help message without running the body), and finally
the body `cls.function`. -/
def Command.gated_execute (c : CommandM) (eventGroups : List String)
    (args : List String) : DispatchTrace :=
  if c.group ∉ eventGroups ∧ "root" ∉ eventGroups then
    ⟨.error .perm, false, false⟩
  else
    match c.argparser with
    | some ap =>
        match ap args with
        | .error s => ⟨.error (.argparse s), true, false⟩
        | .ok parsed =>
            if parsed.help then ⟨.ok (.vstr c.help_message), true, false⟩
            else ⟨.ok (c.fn (.parsed parsed)), true, true⟩
    | none => ⟨.ok (c.fn (.raw args)), false, true⟩

/-- C8: the capability-group check runs before the argument parser and
the body: when the caller's groups contain neither the command's
required group nor the override group `"root"`, dispatch raises
`CommandPermissionError` and neither the parser nor the body runs; when
the check passes, the permission error is never produced. -/
theorem c8_dispatch_permission :
    (∀ (c : CommandM) (gs args : List String),
      c.group ∉ gs → "root" ∉ gs →
      Command.gated_execute c gs args
        = ⟨.error .perm, false, false⟩)
    ∧ (∀ (c : CommandM) (gs args : List String),
      (c.group ∈ gs ∨ "root" ∈ gs) →
      (Command.gated_execute c gs args).result ≠ .error .perm) := by
  constructor
  · intro c gs args h1 h2
    simp [Command.gated_execute, h1, h2]
  · intro c gs args h
    have hcheck : ¬ (c.group ∉ gs ∧ "root" ∉ gs) := by tauto
    simp only [Command.gated_execute, hcheck, if_false]
    match c.argparser with
    | some ap =>
        match hap : ap args with
        | .error s => simp [hap]
        | .ok parsed =>
            by_cases hh : parsed.help = true <;> simp [hap, hh]
    | none => simp

/-- Witness for C8: a caller with no matching group is rejected before
any parsing. -/
theorem c8_dispatch_permission_witness :
    Command.gated_execute
      ⟨"admin", none, "help", fun _ => .vnone⟩ ["any", "user"] ["x"]
      = ⟨.error .perm, false, false⟩ :=
  c8_dispatch_permission.1 ⟨"admin", none, "help", fun _ => .vnone⟩
    ["any", "user"] ["x"] (by decide) (by decide)

/-- The allocator state of `RootDirectory`
(`src/structure/filesystem.py` lines 855-886): the free-inode list plus
the two next-counters (public inodes are persisted and live at
≥ 10000, private/bootstrap ones below). -/
structure RootState where
  free_inodes_list : List Nat
  next_public_inode : Nat
  next_private_inode : Nat
  deriving Repr, DecidableEq

/-- Models `RootDirectory.free_public_inodes`. -/
def free_public_inodes (s : RootState) : List Nat :=
  s.free_inodes_list.filter (fun i => 10000 ≤ i)

/-- Models `RootDirectory.free_private_inodes`. -/
def free_private_inodes (s : RootState) : List Nat :=
  s.free_inodes_list.filter (fun i => i < 10000)

/-- Models `RootDirectory.create_inode` (lines 871-886): take the first free
inode of the requested range (removing its first occurrence from the
free list, `list.remove`), else take and bump the range's
next-counter. -/
def create_inode (s : RootState) (pub : Bool) : Nat × RootState :=
  if pub then
    match free_public_inodes s with
    | i :: _ => (i, { s with free_inodes_list := s.free_inodes_list.erase i })
    | [] => (s.next_public_inode,
        { s with next_public_inode := s.next_public_inode + 1 })
  else
    match free_private_inodes s with
    | i :: _ => (i, { s with free_inodes_list := s.free_inodes_list.erase i })
    | [] => (s.next_private_inode,
        { s with next_private_inode := s.next_private_inode + 1 })

/-- The free-list invariant exactly as claimed: no duplicates, the
≥ 10000 entries lie below `next_public_inode`, the rest below
`next_private_inode`. -/
def InodeInv (s : RootState) : Prop :=
  s.free_inodes_list.Nodup
  ∧ (∀ i ∈ s.free_inodes_list, 10000 ≤ i → i < s.next_public_inode)
  ∧ (∀ i ∈ s.free_inodes_list, i < 10000 → i < s.next_private_inode)

instance (s : RootState) : Decidable (InodeInv s) := by
  unfold InodeInv; infer_instance

/-- The inodes a state may still hand out: free-list members, and the
not-yet-used upper parts of both counter ranges. -/
def Avail (s : RootState) (i : Nat) : Prop :=
  i ∈ s.free_inodes_list
  ∨ (10000 ≤ i ∧ s.next_public_inode ≤ i)
  ∨ (i < 10000 ∧ s.next_private_inode ≤ i)

/-- A sequence of allocations with no intervening frees, returning the
allocated inodes in order. -/
def allocSeq (s : RootState) : List Bool → List Nat × RootState
  | [] => ([], s)
  | b :: rest =>
      let p := create_inode s b
      let q := allocSeq p.2 rest
      (p.1 :: q.1, q.2)

/-- C10 (counterexample): the claimed invariant does not constrain the
two next-counters, so it is satisfied by a state whose private counter
has entered the public range: there `create_inode` with `public=False`
returns an inode that is not `< 10000`, and two consecutive calls
(private then public) can return the same inode. -/
theorem c10_counterexample :
    InodeInv ⟨[], 10000, 10005⟩
    ∧ ¬ ((create_inode ⟨[], 10000, 10005⟩ false).1 < 10000)
    ∧ InodeInv ⟨[], 10005, 10005⟩
    ∧ (create_inode ⟨[], 10005, 10005⟩ false).1
        = (create_inode (create_inode ⟨[], 10005, 10005⟩ false).2 true).1 := by
  refine ⟨by decide, ?_, by decide, ?_⟩
  · simp [create_inode, free_private_inodes, free_public_inodes]
  · simp [create_inode, free_private_inodes, free_public_inodes]

theorem mem_free_public {s : RootState} {i : Nat} :
    i ∈ free_public_inodes s ↔ i ∈ s.free_inodes_list ∧ 10000 ≤ i := by
  simp [free_public_inodes]

theorem mem_free_private {s : RootState} {i : Nat} :
    i ∈ free_private_inodes s ↔ i ∈ s.free_inodes_list ∧ i < 10000 := by
  simp [free_private_inodes]

theorem create_inode_step (s : RootState) (b : Bool)
    (hInv : InodeInv s) (hPub : 10000 ≤ s.next_public_inode)
    (hPriv : b = false → s.next_private_inode < 10000) :
    InodeInv (create_inode s b).2
    ∧ 10000 ≤ (create_inode s b).2.next_public_inode
    ∧ (create_inode s b).2.next_private_inode
        ≤ s.next_private_inode + (if b then 0 else 1)
    ∧ (b = true → 10000 ≤ (create_inode s b).1)
    ∧ (b = false → (create_inode s b).1 < 10000)
    ∧ (create_inode s b).1 ∉ (create_inode s b).2.free_inodes_list
    ∧ Avail s (create_inode s b).1
    ∧ (∀ j, Avail (create_inode s b).2 j → Avail s j ∧ j ≠ (create_inode s b).1) := by
  obtain ⟨hnd, hpub, hpriv⟩ := hInv
  cases b with
  | true =>
      cases hfp : free_public_inodes s with
      | cons i t =>
          have hifree : i ∈ s.free_inodes_list ∧ 10000 ≤ i := by
            rw [← mem_free_public, hfp]; exact List.mem_cons_self i t
          have hilt : i < s.next_public_inode := hpub i hifree.1 hifree.2
          simp only [create_inode, if_true, hfp]
          refine ⟨⟨hnd.erase i, ?_, ?_⟩, hPub, by simp, fun _ => hifree.2,
            by simp, hnd.not_mem_erase, Or.inl hifree.1, ?_⟩
          · intro j hj hj10
            exact hpub j (List.mem_of_mem_erase hj) hj10
          · intro j hj hj10
            exact hpriv j (List.mem_of_mem_erase hj) hj10
          · intro j hj
            dsimp only [Avail] at hj
            rcases hj with hj | hj | hj
            · rw [hnd.mem_erase_iff] at hj
              exact ⟨Or.inl hj.2, hj.1⟩
            · refine ⟨Or.inr (Or.inl hj), ?_⟩
              intro he; subst he; omega
            · refine ⟨Or.inr (Or.inr hj), ?_⟩
              intro he; subst he; omega
      | nil =>
          have hnotfree : s.next_public_inode ∉ s.free_inodes_list := by
            intro hmem
            have : s.next_public_inode ∈ free_public_inodes s :=
              mem_free_public.2 ⟨hmem, hPub⟩
            rw [hfp] at this; exact absurd this (List.not_mem_nil _)
          simp only [create_inode, if_true, hfp]
          refine ⟨⟨hnd, ?_, hpriv⟩, by omega, by simp, fun _ => hPub,
            by simp, hnotfree, Or.inr (Or.inl ⟨hPub, le_refl _⟩), ?_⟩
          · intro j hj hj10
            dsimp only
            have := hpub j hj hj10; omega
          · intro j hj
            dsimp only [Avail] at hj
            rcases hj with hj | hj | hj
            · refine ⟨Or.inl hj, ?_⟩
              intro he; subst he; exact hnotfree hj
            · refine ⟨Or.inr (Or.inl ⟨hj.1, by omega⟩), by omega⟩
            · refine ⟨Or.inr (Or.inr hj), ?_⟩
              intro he; subst he; omega
  | false =>
      have hPriv' : s.next_private_inode < 10000 := hPriv rfl
      cases hfp : free_private_inodes s with
      | cons i t =>
          have hifree : i ∈ s.free_inodes_list ∧ i < 10000 := by
            rw [← mem_free_private, hfp]; exact List.mem_cons_self i t
          have hilt : i < s.next_private_inode := hpriv i hifree.1 hifree.2
          simp only [create_inode, if_false, Bool.false_eq_true, hfp]
          refine ⟨⟨hnd.erase i, ?_, ?_⟩, hPub, by simp, by simp,
            fun _ => hifree.2, hnd.not_mem_erase, Or.inl hifree.1, ?_⟩
          · intro j hj hj10
            exact hpub j (List.mem_of_mem_erase hj) hj10
          · intro j hj hj10
            exact hpriv j (List.mem_of_mem_erase hj) hj10
          · intro j hj
            dsimp only [Avail] at hj
            rcases hj with hj | hj | hj
            · rw [hnd.mem_erase_iff] at hj
              exact ⟨Or.inl hj.2, hj.1⟩
            · refine ⟨Or.inr (Or.inl hj), ?_⟩
              intro he; subst he; omega
            · refine ⟨Or.inr (Or.inr hj), ?_⟩
              intro he; subst he; omega
      | nil =>
          have hnotfree : s.next_private_inode ∉ s.free_inodes_list := by
            intro hmem
            have : s.next_private_inode ∈ free_private_inodes s :=
              mem_free_private.2 ⟨hmem, hPriv'⟩
            rw [hfp] at this; exact absurd this (List.not_mem_nil _)
          simp only [create_inode, if_false, Bool.false_eq_true, hfp]
          refine ⟨⟨hnd, hpub, ?_⟩, hPub, by simp, by simp,
            fun _ => hPriv', hnotfree,
            Or.inr (Or.inr ⟨hPriv', le_refl _⟩), ?_⟩
          · intro j hj hj10
            dsimp only
            have := hpriv j hj hj10; omega
          · intro j hj
            dsimp only [Avail] at hj
            rcases hj with hj | hj | hj
            · refine ⟨Or.inl hj, ?_⟩
              intro he; subst he; exact hnotfree hj
            · refine ⟨Or.inr (Or.inl hj), ?_⟩
              intro he; subst he; omega
            · refine ⟨Or.inr (Or.inr ⟨hj.1, by omega⟩), by omega⟩

theorem allocSeq_props (bs : List Bool) :
    ∀ s, InodeInv s → 10000 ≤ s.next_public_inode →
      s.next_private_inode + bs.count false ≤ 10000 →
      (∀ j ∈ (allocSeq s bs).1, Avail s j) ∧ (allocSeq s bs).1.Nodup := by
  induction bs with
  | nil => intro s _ _ _; simp [allocSeq]
  | cons b rest ih =>
      intro s hInv hPub hBudget
      have hPriv : b = false → s.next_private_inode < 10000 := by
        intro hb; subst hb
        simp [List.count_cons] at hBudget
        omega
      obtain ⟨hInv', hPub', hPriv', _, _, _, hAvail, hShrink⟩ :=
        create_inode_step s b hInv hPub hPriv
      have hBudget' : (create_inode s b).2.next_private_inode + rest.count false
          ≤ 10000 := by
        cases b <;> simp [List.count_cons] at hBudget hPriv' ⊢ <;> omega
      obtain ⟨ihAvail, ihNodup⟩ := ih (create_inode s b).2 hInv' hPub' hBudget'
      constructor
      · intro j hj
        simp only [allocSeq, List.mem_cons] at hj
        rcases hj with hj | hj
        · subst hj; exact hAvail
        · exact (hShrink j (ihAvail j hj)).1
      · simp only [allocSeq, List.nodup_cons]
        refine ⟨?_, ihNodup⟩
        intro hmem
        exact (hShrink _ (ihAvail _ hmem)).2 rfl

/-- C10 (amended): under the claimed free-list invariant strengthened
by the two counter-range conditions the counterexample forces
(`next_public_inode` has not left the low range behind —
`10000 ≤ next_public_inode` — and `next_private_inode` is still inside
the private range), `create_inode` preserves the invariant, returns an
inode ≥ 10000 exactly for `public=True` and < 10000 otherwise, removes
the returned inode from the free list, and any sequence of calls whose
private allocations fit below 10000 returns pairwise-distinct
inodes. -/
theorem c10_create_inode_amended :
    (∀ s b, InodeInv s → 10000 ≤ s.next_public_inode →
      (b = false → s.next_private_inode < 10000) →
      InodeInv (create_inode s b).2
      ∧ 10000 ≤ (create_inode s b).2.next_public_inode
      ∧ (b = true → 10000 ≤ (create_inode s b).1)
      ∧ (b = false → (create_inode s b).1 < 10000)
      ∧ (create_inode s b).1 ∉ (create_inode s b).2.free_inodes_list)
    ∧ (∀ s bs, InodeInv s → 10000 ≤ s.next_public_inode →
      s.next_private_inode + bs.count false ≤ 10000 →
      (allocSeq s bs).1.Nodup) := by
  constructor
  · intro s b hInv hPub hPriv
    obtain ⟨h1, h2, _, h4, h5, h6, _, _⟩ := create_inode_step s b hInv hPub hPriv
    exact ⟨h1, h2, h4, h5, h6⟩
  · intro s bs hInv hPub hBudget
    exact (allocSeq_props bs s hInv hPub hBudget).2

/-- Witness for C10: a fresh root state allocating one public and one
private inode yields distinct inodes. -/
theorem c10_create_inode_amended_witness :
    (allocSeq ⟨[], 10000, 2⟩ [true, false]).1.Nodup :=
  c10_create_inode_amended.2 ⟨[], 10000, 2⟩ [true, false] (by decide)
    (by decide) (by decide)

/-- Node kinds relevant to `BaseFile.remove`: `dir_kinds` membership
collapses to `directory`, everything else to `file`. -/
inductive NodeKind where
  | file
  | directory
  deriving Repr, DecidableEq

/-- A stored filesystem node: kind, the inodes referring to it
(`refs`), and for directories the ordered name→inode map (`files`). -/
structure FSNode where
  kind : NodeKind
  refs : List Nat
  files : List (String × Nat)
  deriving Repr, DecidableEq

/-- The filesystem: the live node store (fused with the backing
database, keyed by inode) and the root's free-inode list. -/
structure FS where
  store : List (Nat × FSNode)
  free : List Nat
  deriving Repr, DecidableEq

/-- Models `get_by_inode`: load a node by inode (`None` when absent). -/
def lookupNode (fs : FS) (i : Nat) : Option FSNode :=
  (fs.store.find? (fun p => p.1 == i)).map (·.2)

/-- Replace the node stored at inode `i`. -/
def setNode (fs : FS) (i : Nat) (n : FSNode) : FS :=
  { fs with store := fs.store.map (fun p => if p.1 = i then (i, n) else p) }

/-- Filesystem errors raised by `remove`:
`NoFileFoundError`, `NonEmptyDirectoryError`, the `NotImplementedError`
guard for `RegularFile`, and a crash on a missing node (`selected`
being `None`). -/
inductive FsErr where
  | noFileFound
  | nonEmptyDirectory
  | notImplemented
  | missingNode
  deriving Repr, DecidableEq

/-- The private deletion helper `BaseFile.__delete`
(`src/structure/filesystem.py` lines 394-414), with explicit recursion
fuel standing in for Python's call stack.  A node with remaining
references is left untouched; a directory removed recursively first
recurses into each child (note: the child still holds the parent's
inode in its `refs`); finally the node's inode is appended to the
root's free list and the node removed from the store, yielding the
deleted inodes in the order they were freed. -/
def deleteGo (recursive : Bool) : Nat → FS → Nat → FS × List Nat
  | 0, fs, _ => (fs, [])
  | fuel + 1, fs, i =>
    match lookupNode fs i with
    | none => (fs, [])
    | some n =>
      if n.refs ≠ [] then (fs, [])
      else
        let step :=
          if n.kind = .directory ∧ recursive then
            n.files.foldl (fun acc c =>
              let d := deleteGo recursive fuel acc.1 c.2
              (d.1, acc.2 ++ d.2)) (fs, ([] : List Nat))
          else (fs, [])
        ({ step.1 with
            free := step.1.free ++ [i]
            store := step.1.store.filter (fun p => p.1 ≠ i) },
         step.2 ++ [i])

/-- Models `BaseFile.remove` (`src/structure/filesystem.py` lines 351-392) on
a directory `selfI`, selecting the child by `name` (the plain-name path
of `Directory.select`; universal segments are resolved upstream), under
a permissive event (the permission check passes).  Raises for a
`RegularFile` receiver, for an unknown name, and for a non-empty
directory without `recursive`; otherwise pops the entry from the
receiver's `files`, drops the receiver from the child's `refs`, and
runs the deletion cascade, returning the freed inodes. -/
def BaseFile.remove (fs : FS) (selfI : Nat) (name : String)
    (recursive : Bool) : Except FsErr (FS × List Nat) :=
  match lookupNode fs selfI with
  | none => .error .missingNode
  | some selfN =>
    if selfN.kind = .file then .error .notImplemented
    else
      match selfN.files.lookup name with
      | none => .error .noFileFound
      | some selI =>
        match lookupNode fs selI with
        | none => .error .missingNode
        | some selN =>
          if selN.kind = .directory ∧ selN.files ≠ [] ∧ ¬recursive then
            .error .nonEmptyDirectory
          else
            let selfN' := { selfN with
              files := selfN.files.filter (fun c => c.1 ≠ name) }
            let selN' := { selN with refs := selN.refs.erase selfI }
            let fs2 := setNode (setNode fs selfI selfN') selI selN'
            .ok (deleteGo recursive (fs2.store.length + 1) fs2 selI)

/-- A directory tree for exercising `remove`: root `1` holds directory
`d` (inode 10000), which holds directory `s` (10001), which holds the
regular file `f` (10002); every child's `refs` holds its parent. -/
def bugFS : FS :=
  ⟨[(1, ⟨.directory, [], [("d", 10000)]⟩),
    (10000, ⟨.directory, [1], [("s", 10001)]⟩),
    (10001, ⟨.directory, [10000], [("f", 10002)]⟩),
    (10002, ⟨.file, [10001], []⟩)], []⟩

/-- The state after `remove("f")` on directory 10001: file 10002 is
gone from the store and its inode freed. -/
def bugFSAfterFile : FS :=
  ⟨[(1, ⟨.directory, [], [("d", 10000)]⟩),
    (10000, ⟨.directory, [1], [("s", 10001)]⟩),
    (10001, ⟨.directory, [10000], []⟩)], [10002]⟩

/-- The state after `remove("s", recursive=True)` on directory 10000:
only inode 10001 was freed; file 10002 survives with a dangling
reference to the deleted directory. -/
def bugFSAfterRec : FS :=
  ⟨[(1, ⟨.directory, [], [("d", 10000)]⟩),
    (10000, ⟨.directory, [1], []⟩),
    (10002, ⟨.file, [10001], []⟩)], [10001]⟩

/-- C3 (divergence exhibit): on `bugFS`, removing the non-empty
directory `s` without `recursive` raises `NonEmptyDirectoryError`, and
removing the last reference to the plain file `f` deletes it and frees
its inode — but `remove("s", recursive=True)` frees only inode 10001:
the subtree file 10002 survives in the store with a dangling reference
and its inode is never freed, because the private deletion helper
returns early on any child whose `refs` still names the directory
being deleted. -/
theorem c3_remove_recursive_bug :
    BaseFile.remove bugFS 10000 "s" false = .error .nonEmptyDirectory
    ∧ BaseFile.remove bugFS 10001 "f" false = .ok (bugFSAfterFile, [10002])
    ∧ BaseFile.remove bugFS 10000 "s" true = .ok (bugFSAfterRec, [10001])
    ∧ 10002 ∉ bugFSAfterRec.free
    ∧ lookupNode bugFSAfterRec 10002 = some ⟨.file, [10001], []⟩ := by
  refine ⟨rfl, rfl, rfl, by decide, by decide⟩

/-- The ASCII single-quote character used in bashlex error messages. -/
def quoteCh : Char := Char.ofNat 39

/-- The data of a raised `bashlex.errors.ParsingError`: `str(ex)`, the
`message`, the offending source `s` and the error `position`.  Strings
are modelled as character lists so python-style slicing is explicit. -/
structure BashErr where
  strMsg : List Char
  message : List Char
  s : List Char
  position : Nat
  deriving Repr, DecidableEq

/-- Substring test, `pat in s`. -/
def hasSub (pat : List Char) : List Char → Bool
  | [] => pat.isEmpty
  | c :: rest => pat.isPrefixOf (c :: rest) || hasSub pat rest

/-- Models `s.replace(pat, rep, 1)`: replace the first occurrence only (an
empty pattern matches at the front, as in Python). -/
def replaceFirstL (s pat rep : List Char) : List Char :=
  match s with
  | [] => if pat.isEmpty then rep else []
  | c :: rest =>
      if pat.isPrefixOf (c :: rest) then rep ++ (c :: rest).drop pat.length
      else c :: replaceFirstL rest pat rep

/-- Python slice `s[:i]` with a possibly negative index. -/
def pyTake (s : List Char) (i : Int) : List Char :=
  if 0 ≤ i then s.take i.toNat else s.take (s.length - (-i).toNat)

/-- Python slice `s[i:]` with a possibly negative index. -/
def pyDrop (s : List Char) (i : Int) : List Char :=
  if 0 ≤ i then s.drop i.toNat else s.drop (s.length - (-i).toNat)

/-- Models `source[:position] + rep + source[position + 1:]`: escape the
character at `position`. -/
def escapeAt (src : List Char) (position : Nat) (rep : List Char) :
    List Char :=
  src.take position ++ rep ++ src.drop (position + 1)

/-- Models `"unexpected token"`. -/
def unexpectedTok : List Char := "unexpected token".toList

/-- Models `"'('"`. -/
def lparenTok : List Char := [quoteCh, '(', quoteCh]

/-- Models `"')'"`. -/
def rparenTok : List Char := [quoteCh, ')', quoteCh]

/-- Result of `parse` (`src/parser/__init__.py`): a successful bashlex
parse with the (possibly escaped) final content, a raised
`ParsingError`, the fall-through `break` path (the function returns
`None`), or exhausted modelling fuel. -/
inductive ParseOut (α : Type) where
  | ok (ast : α) (content : List Char)
  | parseError (msg : List Char)
  | fellThrough
  | fuelOut
  deriving Repr, DecidableEq

/-- The `while True` retry loop of `parse` (`src/parser/__init__.py`
lines 63-130), over an abstract external parser `bash`
(`bashlex.parse`).  On a parsing error whose `str(ex)` was already seen
(`prev`), a `ParsingError` is raised at once; otherwise the message is
recorded and, for "unexpected token" errors, the offending parenthesis
is escaped (three escaping strategies) and the parse retried; all other
errors raise `ParsingError`. -/
def parseLoop (α : Type) (bash : List Char → Except BashErr α) :
    Nat → List Char → List (List Char) → ParseOut α
  | 0, _, _ => .fuelOut
  | fuel + 1, content, prev =>
    match bash content with
    | .ok ast => .ok ast content
    | .error ex =>
      if ex.strMsg ∈ prev then .parseError ex.strMsg
      else
        let prevN := prev ++ [ex.strMsg]
        if hasSub unexpectedTok ex.message then
          if hasSub lparenTok ex.message then
            parseLoop α bash fuel
              (replaceFirstL content ex.s (escapeAt ex.s ex.position ['\\', '(']))
              prevN
          else if hasSub rparenTok ex.message then
            parseLoop α bash fuel
              (replaceFirstL content ex.s (escapeAt ex.s ex.position ['\\', ')']))
              prevN
          else if hasSub ['('] content then
            parseLoop α bash fuel
              (pyTake content ((ex.position : Int) - 2)
                ++ replaceFirstL (pyDrop content ((ex.position : Int) - 2))
                    ['('] ['\\', '('])
              prevN
          else .fellThrough
        else .parseError ex.strMsg

theorem parseLoop_no_fuelOut (α : Type) (bash : List Char → Except BashErr α)
    (S : List (List Char))
    (hS : ∀ c ex, bash c = .error ex → ex.strMsg ∈ S) :
    ∀ fuel content prev, prev.Nodup → prev ⊆ S →
      S.length < fuel + prev.length →
      parseLoop α bash fuel content prev ≠ .fuelOut := by
  intro fuel
  induction fuel with
  | zero =>
      intro content prev hnd hsub hlen
      have := (List.subperm_of_subset hnd hsub).length_le
      omega
  | succ fuel ih =>
      intro content prev hnd hsub hlen
      rw [parseLoop]
      match hb : bash content with
      | .ok ast => simp
      | .error ex =>
          simp only
          by_cases hmem : ex.strMsg ∈ prev
          · simp [hmem]
          · have hnd' : (prev ++ [ex.strMsg]).Nodup := by
              simp [List.nodup_append, hnd, hmem]
            have hsub' : prev ++ [ex.strMsg] ⊆ S := by
              intro x hx
              rcases List.mem_append.1 hx with hx | hx
              · exact hsub hx
              · simp at hx; subst hx; exact hS content ex hb
            have hlen' : S.length < fuel + (prev ++ [ex.strMsg]).length := by
              simp; omega
            simp only [hmem, if_false]
            by_cases h1 : hasSub unexpectedTok ex.message = true
            · by_cases h2 : hasSub lparenTok ex.message = true
              · simp [h1, h2]; exact ih _ _ hnd' hsub' hlen'
              · by_cases h3 : hasSub rparenTok ex.message = true
                · simp [h1, h2, h3]; exact ih _ _ hnd' hsub' hlen'
                · by_cases h4 : hasSub ['('] content = true
                  · simp [h1, h2, h3, h4]; exact ih _ _ hnd' hsub' hlen'
                  · simp [h1, h2, h3, h4]
            · simp [h1]

/-- C9: when the external parser fails, each distinct error message
triggers at most one retry — as soon as a message repeats, `parse`
raises `ParsingError` instead of retrying — so, whenever the external
parser draws its error messages from any finite set `S`, the retry loop
terminates: with fuel exceeding the number of unseen messages it never
runs out (and since each pass consumes one unit of fuel, the loop makes
at most `|S| + 1` passes). -/
theorem c9_parse_retry :
    (∀ (α : Type) (bash : List Char → Except BashErr α) fuel content prev ex,
      0 < fuel → bash content = .error ex → ex.strMsg ∈ prev →
      parseLoop α bash fuel content prev = .parseError ex.strMsg)
    ∧ (∀ (α : Type) (bash : List Char → Except BashErr α)
        (S : List (List Char)),
      (∀ c ex, bash c = .error ex → ex.strMsg ∈ S) →
      ∀ fuel content, S.length < fuel →
      parseLoop α bash fuel content [] ≠ .fuelOut) := by
  constructor
  · intro α bash fuel content prev ex hf hb hm
    match fuel, hf with
    | fuel + 1, _ =>
        rw [parseLoop, hb]
        simp [hm]
  · intro α bash S hS fuel content hlen
    exact parseLoop_no_fuelOut α bash S hS fuel content []
      List.nodup_nil (by intro x hx; cases hx) (by simpa using hlen)

/-- Witness for C9: a parser that always reports the same message makes
`parse` raise that message as a `ParsingError` on the second sight. -/
theorem c9_parse_retry_witness :
    parseLoop Unit (fun _ => .error ⟨['m'], [], [], 0⟩) 3 []
      [['m']] = .parseError ['m'] :=
  c9_parse_retry.1 Unit (fun _ => .error ⟨['m'], [], [], 0⟩) 3 [] [['m']]
    ⟨['m'], [], [], 0⟩ (by omega) rfl (by simp)

end CliBot
